import Mathlib

/-!
Verification development for the WebUntisSync repository (src/sync.py).

The Python program is shallowly embedded as executable Lean definitions:
  * Python `str` of a non-negative integer is modelled by `natToDigits`
    (decimal digits, most significant first); `str.zfill` by `zfill`.
  * `datetime.strptime(s, "%Y%m%d%H%M")` is modelled faithfully after
    CPython's `_strptime`: the format compiles to the regex
    `\d\d\d\d (1[0-2]|0[1-9]|[1-9]) (3[01]|[12]\d|0[1-9]|[1-9])
     (2[0-3]|[0-1]\d|\d) ([0-5]\d|\d)` matched with ordered-alternative
    backtracking; afterwards strptime raises ValueError when unconverted
    data remains, and `datetime(...)` validates the day of month
    (Gregorian leap years) and year >= 1.
  * JSON scalar values that can sit in `date` / `startTime` / `endTime` /
    `id` are modelled by `JVal` (integer or string); a key that is absent
    from the lesson dict is `none` (Python raises KeyError there).
  * dates handled with `datetime.timedelta` arithmetic are modelled as
    integer day ordinals.
Recursion that is a `while` loop in Python is written with an explicit
fuel argument (the loop advances its start date by at least 29 days per
iteration, so `(endDate - startDate).toNat + 1` steps always suffice);
this keeps every definition structurally recursive and evaluable by
`decide`.
-/

namespace WebUntisSync

/-! ## Decimal digits: the model of Python `str` on non-negative ints -/

/-- The character of a decimal digit (Python's digit characters). -/
def digitChar : Nat → Char
  | 0 => '0' | 1 => '1' | 2 => '2' | 3 => '3' | 4 => '4'
  | 5 => '5' | 6 => '6' | 7 => '7' | 8 => '8' | _ => '9'

/-- Fuel-driven decimal printer; `fuel > n` always suffices. -/
def natToDigitsGo : Nat → Nat → List Char
  | _, 0 => []
  | n, fuel + 1 =>
    if n < 10 then [digitChar n]
    else natToDigitsGo (n / 10) fuel ++ [digitChar (n % 10)]

/-- Decimal representation of a natural number, most significant digit
first: the model of Python `str(n)` for `n >= 0`. -/
def natToDigits (n : Nat) : List Char := natToDigitsGo n (n + 1)

/-- Numeric value of a digit character (`'0'` ↦ 0, ..., `'9'` ↦ 9). -/
def digitVal (c : Char) : Nat := c.toNat - 48

/-- Value of a big-endian digit string. -/
def digitsVal (l : List Char) : Nat := l.foldl (fun a c => 10 * a + digitVal c) 0

/-- The exactly-`k`-digit zero-padded decimal representation of
`b % 10 ^ k` (used to state facts about digit strings). -/
def padDigits : Nat → Nat → List Char
  | 0, _ => []
  | k + 1, b => padDigits k (b / 10) ++ [digitChar (b % 10)]

/-- A JSON scalar as it can appear in a WebUntis lesson field. -/
inductive JVal
  | int (n : Int)
  | str (s : String)
deriving DecidableEq, Repr

/-- Python `str(...)` on a `JVal` (f-string formatting and the
`str(date_int)` calls in `parse_webuntis_time`). -/
def pyStrChars : JVal → List Char
  | .int n => if n < 0 then '-' :: natToDigits (-n).toNat else natToDigits n.toNat
  | .str s => s.data

/-- Python `str.zfill(w)`: left-pad with `'0'` to width `w`, keeping a
leading sign character in place. -/
def zfill (w : Nat) (s : List Char) : List Char :=
  if w ≤ s.length then s
  else
    match s with
    | [] => List.replicate w '0'
    | c :: rest =>
      if c = '+' ∨ c = '-' then c :: (List.replicate (w - s.length) '0' ++ rest)
      else List.replicate (w - s.length) '0' ++ s

/-! ## The strptime("%Y%m%d%H%M") model -/

/-- A two-character regex alternative: both character classes must match;
the captured value is the two-digit number. -/
def alt2 (p1 p2 : Char → Bool) : List Char → Option (Nat × List Char)
  | c1 :: c2 :: rest =>
    if p1 c1 && p2 c2 then some (digitVal c1 * 10 + digitVal c2, rest) else none
  | _ => none

/-- A one-character regex alternative. -/
def alt1 (p : Char → Bool) : List Char → Option (Nat × List Char)
  | c :: rest => if p c then some (digitVal c, rest) else none
  | _ => none

/-- `%Y` compiles to `\d\d\d\d`: exactly four digits. -/
def matchY : List Char → Option (Nat × List Char)
  | c1 :: c2 :: c3 :: c4 :: rest =>
    if c1.isDigit && c2.isDigit && c3.isDigit && c4.isDigit then
      some (digitVal c1 * 1000 + digitVal c2 * 100 + digitVal c3 * 10 + digitVal c4, rest)
    else none
  | _ => none

/-- `%m` = `1[0-2]|0[1-9]|[1-9]`: candidate matches in preference order. -/
def mCands (s : List Char) : List (Nat × List Char) :=
  (alt2 (fun c => c = '1') (fun c => '0' ≤ c && c ≤ '2') s).toList ++
  (alt2 (fun c => c = '0') (fun c => '1' ≤ c && c ≤ '9') s).toList ++
  (alt1 (fun c => '1' ≤ c && c ≤ '9') s).toList

/-- The last `%d` alternative `" [1-9]"` (space then digit): the captured
group is e.g. `" 5"` and `int(" 5")` ignores the blank. -/
def altSpaceDigit : List Char → Option (Nat × List Char)
  | c1 :: c2 :: rest =>
    if c1 = ' ' && ('1' ≤ c2 && c2 ≤ '9') then some (digitVal c2, rest) else none
  | _ => none

/-- `%d` = `3[0-1]|[1-2]\d|0[1-9]|[1-9]| [1-9]`. -/
def dCands (s : List Char) : List (Nat × List Char) :=
  (alt2 (fun c => c = '3') (fun c => c = '0' || c = '1') s).toList ++
  (alt2 (fun c => c = '1' || c = '2') (fun c => c.isDigit) s).toList ++
  (alt2 (fun c => c = '0') (fun c => '1' ≤ c && c ≤ '9') s).toList ++
  (alt1 (fun c => '1' ≤ c && c ≤ '9') s).toList ++
  (altSpaceDigit s).toList

/-- `%H` = `2[0-3]|[0-1]\d|\d`. -/
def hCands (s : List Char) : List (Nat × List Char) :=
  (alt2 (fun c => c = '2') (fun c => '0' ≤ c && c ≤ '3') s).toList ++
  (alt2 (fun c => c = '0' || c = '1') (fun c => c.isDigit) s).toList ++
  (alt1 (fun c => c.isDigit) s).toList

/-- `%M` = `[0-5]\d|\d`. -/
def minCands (s : List Char) : List (Nat × List Char) :=
  (alt2 (fun c => '0' ≤ c && c ≤ '5') (fun c => c.isDigit) s).toList ++
  (alt1 (fun c => c.isDigit) s).toList

/-- Ordered-alternative backtracking: commit to the first candidate whose
continuation succeeds (exactly the search a backtracking regex engine
performs over an alternation). -/
def firstSuccess {α : Type} : List (Nat × List Char) → (Nat → List Char → Option α) → Option α
  | [], _ => none
  | (v, s) :: rest, k =>
    match k v s with
    | some r => some r
    | none => firstSuccess rest k

/-- The regex prefix match for `%Y%m%d%H%M`: the leftmost match with
earlier alternatives preferred, returning captures and leftover input. -/
def regexMatchYmdHM (s : List Char) : Option (Nat × Nat × Nat × Nat × Nat × List Char) :=
  match matchY s with
  | none => none
  | some (y, s1) =>
    firstSuccess (mCands s1) (fun mo s2 =>
      firstSuccess (dCands s2) (fun da s3 =>
        firstSuccess (hCands s3) (fun h s4 =>
          firstSuccess (minCands s4) (fun mi s5 =>
            some (y, mo, da, h, mi, s5)))))

/-- Gregorian leap year, as `calendar.isleap` / `datetime` use it. -/
def isLeap (y : Nat) : Bool := y % 4 = 0 && (y % 100 ≠ 0 || y % 400 = 0)

/-- Days in a month, as `datetime` validates the day field. -/
def daysInMonth (y mo : Nat) : Nat :=
  if mo = 2 then (if isLeap y then 29 else 28)
  else if mo = 4 ∨ mo = 6 ∨ mo = 9 ∨ mo = 11 then 30
  else 31

/-- A naive `datetime.datetime` (only the fields this program uses). -/
structure PyDateTime where
  year : Nat
  month : Nat
  day : Nat
  hour : Nat
  minute : Nat
deriving DecidableEq, Repr

/-- `datetime.strptime(s, "%Y%m%d%H%M")`: `none` models ValueError.
After the regex prefix match, strptime rejects leftover input
("unconverted data remains") and `datetime(...)` rejects a day outside
the month and a year below MINYEAR = 1. -/
def strptimeYmdHM (s : List Char) : Option PyDateTime :=
  match regexMatchYmdHM s with
  | none => none
  | some (y, mo, da, h, mi, leftover) =>
    if leftover = [] ∧ 1 ≤ y ∧ da ≤ daysInMonth y mo then
      some ⟨y, mo, da, h, mi⟩
    else none

/-- `parse_webuntis_time(date_int, time_int)` from sync.py:
`datetime.strptime(str(date_int) + str(time_int).zfill(4), "%Y%m%d%H%M")`. -/
def parse_webuntis_time (dateVal timeVal : JVal) : Option PyDateTime :=
  strptimeYmdHM (pyStrChars dateVal ++ zfill 4 (pyStrChars timeVal))

/-! ## Lessons and events -/

/-- A timezone-aware datetime: `pytz.timezone(tz).localize(dt)` tags the
naive wall-clock datetime with the zone. -/
structure TZDateTime where
  naive : PyDateTime
  tz : String
deriving DecidableEq, Repr

/-- `timezone.localize(dt)`. -/
def localize (tz : String) (dt : PyDateTime) : TZDateTime := ⟨dt, tz⟩

/-- One entry of a lesson's `su`/`te`/`ro`/`kl` list; `none` models an
absent key (the program reads both keys with `.get`). -/
structure FieldRec where
  name : Option String := none
  longname : Option String := none
deriving DecidableEq, Repr

/-- `entry.get('longname') or entry.get('name', '')`: the longname when
present and non-empty (Python truthiness), else the name, else `""`. -/
def displayName (r : FieldRec) : String :=
  match r.longname with
  | some s => if s = "" then r.name.getD "" else s
  | none => r.name.getD ""

/-- A raw lesson dict as returned by getTimetable. `none` models an
absent key; scalar fields that the program formats or parses are `JVal`. -/
structure RawLesson where
  id : Option JVal := none
  date : Option JVal := none
  startTime : Option JVal := none
  endTime : Option JVal := none
  code : Option String := none
  su : List FieldRec := []
  te : List FieldRec := []
  ro : List FieldRec := []
  kl : List FieldRec := []
  info : Option String := none
  substText : Option String := none
deriving DecidableEq, Repr

/-- The normalized calendar event (the fields sync.py adds to an ics
`Event`). -/
structure CalendarEvent where
  summary : String
  dtstart : TZDateTime
  dtend : TZDateTime
  description : Option String
  location : Option String
  uid : String
deriving DecidableEq, Repr

/-- `f"{lesson['id']}-{lesson['date']}-{lesson['startTime']}@webuntis-sync"`. -/
def uidString (idV dateV startV : JVal) : String :=
  String.mk (pyStrChars idV ++ '-' ::
    (pyStrChars dateV ++ '-' :: (pyStrChars startV ++ "@webuntis-sync".data)))

/-- The event-construction part of the loop body of `sync_calendar`
(everything after both time parses succeeded and before `lesson['id']`
is known to be present). -/
def buildEvent (l : RawLesson) (startDt endDt : PyDateTime) (idV dateV startV : JVal) :
    CalendarEvent :=
  let subjects := l.su.map displayName
  let teachers := l.te.map displayName
  let rooms := l.ro.map displayName
  let classes := l.kl.map displayName
  let baseSummary := if subjects.isEmpty then "Lesson" else String.intercalate ", " subjects
  let summary :=
    match l.substText with
    | some t => if t = "" then baseSummary else baseSummary ++ " (" ++ t ++ ")"
    | none => baseSummary
  let descriptionParts :=
    (if teachers.isEmpty then [] else [String.intercalate " / " teachers]) ++
    (if classes.isEmpty then [] else [String.intercalate " / " classes]) ++
    (match l.info with | some t => if t = "" then [] else [t] | none => []) ++
    (match l.substText with | some t => if t = "" then [] else [t] | none => [])
  { summary := summary
    dtstart := localize "Europe/Brussels" startDt
    dtend := localize "Europe/Brussels" endDt
    description :=
      if descriptionParts.isEmpty then none
      else some (String.intercalate "\n" descriptionParts)
    location := if rooms.isEmpty then none else some (String.intercalate ", " rooms)
    uid := uidString idV dateV startV }

/-- One iteration of the lesson loop in `sync_calendar`.
`.ok none` models `continue` (cancelled lesson, or ValueError from the
time parsing, which is the only caught exception); `.error` models an
uncaught KeyError from a `lesson[...]` access, in the evaluation order of
the Python source (`date`, `startTime`, first parse, `endTime`, second
parse, ..., `id`). -/
def normalizeLesson (l : RawLesson) : Except String (Option CalendarEvent) :=
  if l.code = some "cancelled" then .ok none
  else
    match l.date with
    | none => .error "KeyError: 'date'"
    | some dateV =>
      match l.startTime with
      | none => .error "KeyError: 'startTime'"
      | some startV =>
        match parse_webuntis_time dateV startV with
        | none => .ok none
        | some startDt =>
          match l.endTime with
          | none => .error "KeyError: 'endTime'"
          | some endV =>
            match parse_webuntis_time dateV endV with
            | none => .ok none
            | some endDt =>
              match l.id with
              | none => .error "KeyError: 'id'"
              | some idV => .ok (some (buildEvent l startDt endDt idV dateV startV))

/-- The whole lesson loop: events in encounter order together with the
final `event_count`; an uncaught exception aborts the run. -/
def processTimetable : List RawLesson → Except String (List CalendarEvent × Nat)
  | [] => .ok ([], 0)
  | l :: rest =>
    match normalizeLesson l with
    | .error m => .error m
    | .ok none => processTimetable rest
    | .ok (some ev) =>
      match processTimetable rest with
      | .error m => .error m
      | .ok (events, n) => .ok (ev :: events, n + 1)

/-! ## The chunked fetch loop (Time Window Planner + Remote Fetch) -/

/-- The date chunks visited by the `while current_start < end_date` loop
in `get_timetable`, dates as integer day ordinals. Each step advances
`current_start` by at least 29 days, so the fuel used by `getChunks`
suffices. -/
def chunksGo : Nat → Int → Int → List (Int × Int)
  | 0, _, _ => []
  | fuel + 1, currentStart, endDate =>
    if currentStart < endDate then
      (currentStart, min (currentStart + 28) endDate) ::
        chunksGo fuel (min (currentStart + 28) endDate + 1) endDate
    else []

/-- The chunk sequence `get_timetable` iterates over for a window. -/
def getChunks (startDate endDate : Int) : List (Int × Int) :=
  chunksGo ((endDate - startDate).toNat + 1) startDate endDate

/-- Outcome of one chunk's getTimetable request: a result list, a
JSON-RPC `error` member, or a raised transport exception. -/
inductive FetchResult
  | ok (lessons : List RawLesson)
  | rpcError (msg : String)
  | exn (msg : String)

/-- The fetch loop of `get_timetable`: failed chunks are only logged and
contribute nothing; successful chunks extend `full_timetable` in order. -/
def getTimetableGo (fetch : Int × Int → FetchResult) : Nat → Int → Int → List RawLesson
  | 0, _, _ => []
  | fuel + 1, currentStart, endDate =>
    if currentStart < endDate then
      (match fetch (currentStart, min (currentStart + 28) endDate) with
        | .ok items => items
        | .rpcError _ => []
        | .exn _ => []) ++
      getTimetableGo fetch fuel (min (currentStart + 28) endDate + 1) endDate
    else []

/-- `get_timetable(...)` with the per-chunk request outcome abstracted as
the oracle `fetch`. -/
def get_timetable (fetch : Int × Int → FetchResult) (startDate endDate : Int) :
    List RawLesson :=
  getTimetableGo fetch ((endDate - startDate).toNat + 1) startDate endDate

/-! ## Orchestrator (`sync_calendar` and the `__main__` guard) -/

/-- The configuration dict; `none` for `class_id` models an absent /
empty optional setting. -/
structure Config where
  server : String
  school : String
  username : String
  password : String
  class_id : Option Nat := none

/-- Outcome of the authenticate request. -/
inductive LoginResp
  | transportFail (msg : String)
  | rpcError (msg : String)
  | ok (sessionId : Nat)

/-- One element record of a getKlassen / getStudents response. -/
structure ElemRec where
  id : Nat
  name : String

/-- The external world of one run: configuration and the remote
responses. A response `none` models a reply without a `result` member;
`todayOrd` is `datetime.now().date()` as a day ordinal. -/
structure Env where
  config : Option Config
  login : LoginResp
  klassenResult : Option (List ElemRec)
  studentsResult : Option (List ElemRec)
  fetch : Int × Int → FetchResult
  todayOrd : Int

/-- `webuntis_login`: transport failure raises `Connection failed`, a
JSON-RPC `error` member raises `Login failed`, otherwise the session id
is returned. -/
def webuntis_login : LoginResp → Except String Nat
  | .transportFail m => .error ("Connection failed: " ++ m)
  | .rpcError m => .error ("Login failed: " ++ m)
  | .ok sessionId => .ok sessionId

/-- `get_element_id`: configured class id first, then the first class of
getKlassen (element type 1), then the first student of getStudents
(element type 5), else a fatal error. -/
def get_element_id (cfg : Config) (klassenResult studentsResult : Option (List ElemRec)) :
    Except String (Nat × Nat) :=
  match cfg.class_id with
  | some cid => .ok (cid, 1)
  | none =>
    match klassenResult with
    | some (c :: _) => .ok (c.id, 1)
    | _ =>
      match studentsResult with
      | some (s :: _) => .ok (s.id, 5)
      | _ => .error "Could not find any Class or Student ID."

/-- `sync_calendar()`: configuration check, login, element resolution,
window `[today - 90, today + 180]`, chunked fetch, lesson loop. The
returned pair is the content of the written ics file (its events in
order) and the reported event count; `.error` is an uncaught exception
reaching `__main__` before the file write. -/
def sync_calendar (env : Env) : Except String (List CalendarEvent × Nat) :=
  match env.config with
  | none => .error "Configuration not found. Check environment variables."
  | some cfg =>
    match webuntis_login env.login with
    | .error m => .error m
    | .ok _sessionId =>
      match get_element_id cfg env.klassenResult env.studentsResult with
      | .error m => .error m
      | .ok (_elementId, _elementType) =>
        processTimetable
          (get_timetable env.fetch (env.todayOrd - 90) (env.todayOrd + 180))

/-- The success message printed by `sync_calendar`. -/
def successMsg (n : Nat) : String :=
  "✅ Calendar synced successfully: " ++ String.mk (natToDigits n) ++
    " events added to docs/calendar.ics"

/-- The `__main__` guard: exit status, the written output file (if any),
and the final console message. An exception yields exit status 1, an
error message, and no file. -/
def runMain (env : Env) : Nat × Option (List CalendarEvent × Nat) × String :=
  match sync_calendar env with
  | .ok (events, n) => (0, some (events, n), successMsg n)
  | .error m => (1, none, "❌ Error: " ++ m)

/-! ## Spec-side definitions (used to compare the spec's wording with the
code for the summary / description claims) -/

/-- Modelled from the claim text of C7 as written: the comma-joined
subject names (or `"Lesson"`), with `substText` appended in parentheses
whenever it is present. -/
def claimSummary (subjects : List String) (substText : Option String) : String :=
  let base := if subjects = [] then "Lesson" else String.intercalate ", " subjects
  match substText with
  | some t => base ++ " (" ++ t ++ ")"
  | none => base

/-- The amended C7 statement: `substText` is appended only when present
and non-empty. -/
def specSummary (subjects : List String) (substText : Option String) : String :=
  let base := if subjects = [] then "Lesson" else String.intercalate ", " subjects
  match substText with
  | some t => if t = "" then base else base ++ " (" ++ t ++ ")"
  | none => base

/-- Modelled from the claim text of C8 as written: newline-joined parts
in fixed order, with `info` and `substText` included whenever present. -/
def claimDescription (teachers classes : List String) (info substText : Option String) :
    Option String :=
  let parts :=
    (if teachers = [] then [] else [String.intercalate " / " teachers]) ++
    (if classes = [] then [] else [String.intercalate " / " classes]) ++
    (match info with | some t => [t] | none => []) ++
    (match substText with | some t => [t] | none => [])
  if parts = [] then none else some (String.intercalate "\n" parts)

/-- The amended C8 statement: `info` and `substText` contribute a part
only when present and non-empty. -/
def specDescription (teachers classes : List String) (info substText : Option String) :
    Option String :=
  let parts :=
    (if teachers = [] then [] else [String.intercalate " / " teachers]) ++
    (if classes = [] then [] else [String.intercalate " / " classes]) ++
    (match info with | some t => if t = "" then [] else [t] | none => []) ++
    (match substText with | some t => if t = "" then [] else [t] | none => [])
  if parts = [] then none else some (String.intercalate "\n" parts)

/-! ## Lemmas about decimal digit strings -/

theorem natToDigitsGo_congr : ∀ f1 f2 n, n < f1 → n < f2 →
    natToDigitsGo n f1 = natToDigitsGo n f2 := by
  intro f1
  induction f1 with
  | zero => intro f2 n h1 _; omega
  | succ f1 ih =>
    intro f2 n h1 h2
    cases f2 with
    | zero => omega
    | succ f2 =>
      simp only [natToDigitsGo]
      by_cases h : n < 10
      · simp [h]
      · have hd : n / 10 < n := Nat.div_lt_self (by omega) (by omega)
        simp only [if_neg h]
        rw [ih f2 (n / 10) (by omega) (by omega)]

theorem natToDigitsGo_succ (m f : Nat) :
    natToDigitsGo m (f + 1) =
      if m < 10 then [digitChar m] else natToDigitsGo (m / 10) f ++ [digitChar (m % 10)] := rfl

theorem natToDigits_eq (n : Nat) :
    natToDigits n = if n < 10 then [digitChar n]
      else natToDigits (n / 10) ++ [digitChar (n % 10)] := by
  have h1 : natToDigits n =
      if n < 10 then [digitChar n] else natToDigitsGo (n / 10) n ++ [digitChar (n % 10)] :=
    natToDigitsGo_succ n n
  rw [h1]
  by_cases h : n < 10
  · simp [h]
  · rw [if_neg h, if_neg h]
    have hd : n / 10 < n := Nat.div_lt_self (by omega) (by omega)
    have h2 : natToDigitsGo (n / 10) n = natToDigitsGo (n / 10) (n / 10 + 1) :=
      natToDigitsGo_congr n (n / 10 + 1) (n / 10) (by omega) (by omega)
    rw [h2]
    rfl

theorem digitVal_digitChar (d : Nat) (hd : d ≤ 9) : digitVal (digitChar d) = d := by
  interval_cases d <;> rfl

theorem isDigit_digitChar (d : Nat) (hd : d ≤ 9) : (digitChar d).isDigit = true := by
  interval_cases d <;> rfl

theorem digitsVal_append_singleton (l : List Char) (c : Char) :
    digitsVal (l ++ [c]) = 10 * digitsVal l + digitVal c := by
  simp [digitsVal, List.foldl_append]

theorem digitsVal_natToDigits (n : Nat) : digitsVal (natToDigits n) = n := by
  induction n using Nat.strong_induction_on with
  | _ n ih =>
    rw [natToDigits_eq]
    by_cases h : n < 10
    · simp [h, digitsVal, digitVal_digitChar n (by omega)]
    · have hd : n / 10 < n := Nat.div_lt_self (by omega) (by omega)
      rw [if_neg h, digitsVal_append_singleton, ih (n / 10) hd,
        digitVal_digitChar (n % 10) (by omega)]
      omega

theorem natToDigits_injective {a b : Nat} (h : natToDigits a = natToDigits b) : a = b := by
  have ha := digitsVal_natToDigits a
  have hb := digitsVal_natToDigits b
  rw [h] at ha
  omega

theorem isDigit_of_mem_natToDigits {n : Nat} {c : Char} (h : c ∈ natToDigits n) :
    c.isDigit = true := by
  induction n using Nat.strong_induction_on with
  | _ n ih =>
    rw [natToDigits_eq] at h
    by_cases hn : n < 10
    · rw [if_pos hn] at h
      simp only [List.mem_singleton] at h
      subst h
      exact isDigit_digitChar n (by omega)
    · rw [if_neg hn] at h
      have hd : n / 10 < n := Nat.div_lt_self (by omega) (by omega)
      rcases List.mem_append.mp h with h1 | h1
      · exact ih (n / 10) hd h1
      · simp only [List.mem_singleton] at h1
        subst h1
        exact isDigit_digitChar (n % 10) (by omega)

theorem natToDigits_ne_nil (n : Nat) : natToDigits n ≠ [] := by
  rw [natToDigits_eq]
  by_cases h : n < 10 <;> simp [h]

theorem dash_not_mem_natToDigits (n : Nat) : '-' ∉ natToDigits n := by
  intro h
  have := isDigit_of_mem_natToDigits h
  simp [Char.isDigit] at this

theorem natToDigits_cons_digit (m r : Nat) (hm : 1 ≤ m) (hr : r ≤ 9) :
    natToDigits (m * 10 + r) = natToDigits m ++ [digitChar r] := by
  rw [natToDigits_eq (m * 10 + r), if_neg (by omega)]
  have h1 : (m * 10 + r) / 10 = m := by omega
  have h2 : (m * 10 + r) % 10 = r := by omega
  rw [h1, h2]

theorem natToDigits_mul_pow_add (a : Nat) :
    ∀ k b, 1 ≤ a → b < 10 ^ k →
      natToDigits (a * 10 ^ k + b) = natToDigits a ++ padDigits k b := by
  intro k
  induction k with
  | zero =>
    intro b _ hb
    have : b = 0 := by omega
    subst this
    simp [padDigits]
  | succ k ih =>
    intro b ha hb
    have hsplit : a * 10 ^ (k + 1) + b = (a * 10 ^ k + b / 10) * 10 + b % 10 := by
      have h10 : (10 : Nat) ^ (k + 1) = 10 ^ k * 10 := by ring
      have hmod : 10 * (b / 10) + b % 10 = b := Nat.div_add_mod b 10
      calc a * 10 ^ (k + 1) + b = a * 10 ^ k * 10 + (10 * (b / 10) + b % 10) := by
            rw [h10, hmod]; ring
        _ = (a * 10 ^ k + b / 10) * 10 + b % 10 := by ring
    have hb10 : b / 10 < 10 ^ k := by
      have h10 : (10 : Nat) ^ (k + 1) = 10 ^ k * 10 := by ring
      rw [h10] at hb
      exact Nat.div_lt_of_lt_mul (by omega)
    have hm : 1 ≤ a * 10 ^ k + b / 10 := by
      have hp : 0 < 10 ^ k := Nat.one_le_pow k 10 (by omega)
      have hap : 0 < a * 10 ^ k := Nat.mul_pos (by omega) hp
      omega
    rw [hsplit, natToDigits_cons_digit _ _ hm (by omega), ih (b / 10) ha hb10,
      List.append_assoc]
    rfl

theorem padDigits_length (k b : Nat) : (padDigits k b).length = k := by
  induction k generalizing b with
  | zero => rfl
  | succ k ih => simp [padDigits, ih]

theorem padDigits_zero (k : Nat) : padDigits k 0 = List.replicate k '0' := by
  induction k with
  | zero => rfl
  | succ k ih =>
    simp [padDigits, ih, List.replicate_succ]
    exact (List.replicate_succ' k '0').symm ▸ rfl

theorem padDigits_split (k1 : Nat) :
    ∀ k2 N, padDigits (k1 + k2) N =
      padDigits k1 (N / 10 ^ k2) ++ padDigits k2 (N % 10 ^ k2) := by
  intro k2
  induction k2 with
  | zero => intro N; simp [padDigits, Nat.mod_one]
  | succ k2 ih =>
    intro N
    have h1 : k1 + (k2 + 1) = (k1 + k2) + 1 := by omega
    rw [h1]
    simp only [padDigits]
    rw [ih (N / 10)]
    have e1 : N / 10 / 10 ^ k2 = N / 10 ^ (k2 + 1) := by
      rw [Nat.div_div_eq_div_mul]
      congr 1
      ring
    have e2 : N / 10 % 10 ^ k2 = N % 10 ^ (k2 + 1) / 10 := by
      have h10 : (10 : Nat) ^ (k2 + 1) = 10 * 10 ^ k2 := by ring
      rw [h10, Nat.mod_mul_right_div_self]
    have e3 : N % 10 = N % 10 ^ (k2 + 1) % 10 := by
      rw [Nat.mod_mod_of_dvd]
      exact ⟨10 ^ k2, by ring⟩
    rw [e1, e2, e3, List.append_assoc]

theorem padDigits_eq_replicate :
    ∀ k t, 1 ≤ k → t < 10 ^ k →
      padDigits k t = List.replicate (k - (natToDigits t).length) '0' ++ natToDigits t := by
  intro k
  induction k with
  | zero => intro t h; omega
  | succ k ih =>
    intro t _ ht
    by_cases hk : k = 0
    · subst hk
      have h10 : t < 10 := by simpa using ht
      have hnd : natToDigits t = [digitChar t] := by rw [natToDigits_eq, if_pos h10]
      simp [padDigits, hnd, Nat.mod_eq_of_lt h10]
    · by_cases h10 : t < 10
      · have hnd : natToDigits t = [digitChar t] := by rw [natToDigits_eq, if_pos h10]
        have : t / 10 = 0 := by omega
        simp only [padDigits, this, padDigits_zero, hnd, List.length_singleton,
          Nat.mod_eq_of_lt h10]
        rw [show k + 1 - 1 = k from rfl]
      · have hd : t / 10 < 10 ^ k := by
          have hp : (10 : Nat) ^ (k + 1) = 10 ^ k * 10 := by ring
          rw [hp] at ht
          exact Nat.div_lt_of_lt_mul (by omega)
        have hnd : natToDigits t = natToDigits (t / 10) ++ [digitChar (t % 10)] := by
          rw [natToDigits_eq, if_neg h10]
        simp only [padDigits, ih (t / 10) (by omega) hd, hnd, List.length_append,
          List.length_singleton]
        rw [List.append_assoc]
        congr 2
        have hne := natToDigits_ne_nil (t / 10)
        have : 1 ≤ (natToDigits (t / 10)).length := by
          cases hh : natToDigits (t / 10) with
          | nil => exact absurd hh hne
          | cons a l => simp
        omega

theorem natToDigits_length_le (k t : Nat) (hk : 1 ≤ k) (ht : t < 10 ^ k) :
    (natToDigits t).length ≤ k := by
  have h := padDigits_eq_replicate k t hk ht
  have hlen := padDigits_length k t
  rw [h] at hlen
  simp at hlen
  omega

theorem zfill_natToDigits (k t : Nat) (hk : 1 ≤ k) (ht : t < 10 ^ k) :
    zfill k (natToDigits t) = padDigits k t := by
  have hle := natToDigits_length_le k t hk ht
  rw [padDigits_eq_replicate k t hk ht]
  cases hh : natToDigits t with
  | nil => exact absurd hh (natToDigits_ne_nil t)
  | cons c rest =>
    have hc : c.isDigit = true := by
      have hm : c ∈ natToDigits t := by rw [hh]; exact List.mem_cons_self c rest
      exact isDigit_of_mem_natToDigits hm
    have hnotsign : ¬ (c = '+' ∨ c = '-') := by
      rintro (rfl | rfl) <;> simp [Char.isDigit] at hc
    rw [hh] at hle
    rw [zfill.eq_def]
    by_cases heq : k ≤ (c :: rest).length
    · have hlen : (c :: rest).length = k := by omega
      rw [if_pos heq, hlen]
      simp
    · rw [if_neg heq]
      simp only [if_neg hnotsign]

/-! ## Correctness of the strptime model on well-formed inputs -/

theorem padDigits_two (b : Nat) (hb : b < 100) :
    padDigits 2 b = [digitChar (b / 10), digitChar (b % 10)] := by
  have h : b / 10 % 10 = b / 10 := by omega
  simp [padDigits, h]

theorem natToDigits_four (y : Nat) (h1 : 1000 ≤ y) (h2 : y ≤ 9999) :
    natToDigits y = [digitChar (y / 1000), digitChar (y / 100 % 10),
      digitChar (y / 10 % 10), digitChar (y % 10)] := by
  have hsplit : y = y / 1000 * 10 ^ 3 + y % 1000 := by omega
  have hstep : natToDigits y = natToDigits (y / 1000) ++ padDigits 3 (y % 1000) := by
    conv_lhs => rw [hsplit]
    exact natToDigits_mul_pow_add (y / 1000) 3 (y % 1000) (by omega) (by omega)
  have hhead : natToDigits (y / 1000) = [digitChar (y / 1000)] := by
    rw [natToDigits_eq, if_pos (by omega)]
  have hpad : padDigits 3 (y % 1000) =
      [digitChar (y / 100 % 10), digitChar (y / 10 % 10), digitChar (y % 10)] := by
    have e1 : y % 1000 / 10 / 10 % 10 = y / 100 % 10 := by omega
    have e2 : y % 1000 / 10 % 10 = y / 10 % 10 := by omega
    have e3 : y % 1000 % 10 = y % 10 := by omega
    simp [padDigits, e1, e2, e3]
  rw [hstep, hhead, hpad]
  rfl

theorem firstSuccess_cons {α : Type} (v : Nat) (s : List Char)
    (junk : List (Nat × List Char)) (k : Nat → List Char → Option α) (r : α)
    (h : k v s = some r) : firstSuccess ((v, s) :: junk) k = some r := by
  simp [firstSuccess, h]

theorem matchY_digits (d1 d2 d3 d4 : Nat) (rest : List Char)
    (h1 : d1 ≤ 9) (h2 : d2 ≤ 9) (h3 : d3 ≤ 9) (h4 : d4 ≤ 9) :
    matchY (digitChar d1 :: digitChar d2 :: digitChar d3 :: digitChar d4 :: rest) =
      some (d1 * 1000 + d2 * 100 + d3 * 10 + d4, rest) := by
  simp [matchY, isDigit_digitChar d1 h1, isDigit_digitChar d2 h2, isDigit_digitChar d3 h3,
    isDigit_digitChar d4 h4, digitVal_digitChar d1 h1, digitVal_digitChar d2 h2,
    digitVal_digitChar d3 h3, digitVal_digitChar d4 h4]

theorem mCands_head (mo : Nat) (h1 : 1 ≤ mo) (h2 : mo ≤ 12) (rest : List Char) :
    mCands (padDigits 2 mo ++ rest) =
      (mo, rest) :: (mCands (padDigits 2 mo ++ rest)).tail := by
  rw [padDigits_two mo (by omega)]
  interval_cases mo <;> rfl

theorem dCands_head (da : Nat) (h1 : 1 ≤ da) (h2 : da ≤ 31) (rest : List Char) :
    dCands (padDigits 2 da ++ rest) =
      (da, rest) :: (dCands (padDigits 2 da ++ rest)).tail := by
  rw [padDigits_two da (by omega)]
  interval_cases da <;> rfl

theorem hCands_head (h : Nat) (hh : h ≤ 23) (rest : List Char) :
    hCands (padDigits 2 h ++ rest) =
      (h, rest) :: (hCands (padDigits 2 h ++ rest)).tail := by
  rw [padDigits_two h (by omega)]
  interval_cases h <;> rfl

theorem minCands_head (mi : Nat) (hmi : mi ≤ 59) (rest : List Char) :
    minCands (padDigits 2 mi ++ rest) =
      (mi, rest) :: (minCands (padDigits 2 mi ++ rest)).tail := by
  rw [padDigits_two mi (by omega)]
  interval_cases mi <;> rfl

theorem pyStrChars_natInt (n : Nat) : pyStrChars (.int (n : Int)) = natToDigits n := by
  simp [pyStrChars]

theorem daysInMonth_le_31 (y mo : Nat) : daysInMonth y mo ≤ 31 := by
  unfold daysInMonth
  split
  · split <;> omega
  · split <;> omega

/-- On a well-formed 8-digit date and a valid `HMM`/`HHMM` time value the
modelled strptime recovers exactly the encoded wall-clock fields. -/
theorem parse_webuntis_time_valid (y mo da h mi : Nat)
    (hy1 : 1000 ≤ y) (hy2 : y ≤ 9999) (hmo1 : 1 ≤ mo) (hmo2 : mo ≤ 12)
    (hda1 : 1 ≤ da) (hda2 : da ≤ daysInMonth y mo) (hh : h ≤ 23) (hmi : mi ≤ 59) :
    parse_webuntis_time (.int ((y * 10000 + mo * 100 + da : Nat) : Int))
      (.int ((h * 100 + mi : Nat) : Int)) = some ⟨y, mo, da, h, mi⟩ := by
  have hdam : da ≤ 31 := le_trans hda2 (daysInMonth_le_31 y mo)
  have hten4 : (10 : Nat) ^ 4 = 10000 := by norm_num
  have hten2 : (10 : Nat) ^ 2 = 100 := by norm_num
  -- the concatenated character string splits into the five digit groups
  have hdate : pyStrChars (.int ((y * 10000 + mo * 100 + da : Nat) : Int)) =
      natToDigits y ++ (padDigits 2 mo ++ padDigits 2 da) := by
    rw [pyStrChars_natInt]
    have hs : y * 10000 + mo * 100 + da = y * 10 ^ 4 + (mo * 100 + da) := by
      rw [hten4]; omega
    rw [hs, natToDigits_mul_pow_add y 4 (mo * 100 + da) (by omega) (by rw [hten4]; omega)]
    congr 1
    have h4 : (4 : Nat) = 2 + 2 := rfl
    rw [h4, padDigits_split 2 2 (mo * 100 + da)]
    have e1 : (mo * 100 + da) / 10 ^ 2 = mo := by rw [hten2]; omega
    have e2 : (mo * 100 + da) % 10 ^ 2 = da := by rw [hten2]; omega
    rw [e1, e2]
  have htime : zfill 4 (pyStrChars (.int ((h * 100 + mi : Nat) : Int))) =
      padDigits 2 h ++ padDigits 2 mi := by
    rw [pyStrChars_natInt, zfill_natToDigits 4 (h * 100 + mi) (by omega)
      (by rw [hten4]; omega)]
    have h4 : (4 : Nat) = 2 + 2 := rfl
    rw [h4, padDigits_split 2 2 (h * 100 + mi)]
    have e1 : (h * 100 + mi) / 10 ^ 2 = h := by rw [hten2]; omega
    have e2 : (h * 100 + mi) % 10 ^ 2 = mi := by rw [hten2]; omega
    rw [e1, e2]
  have hy4 : natToDigits y = [digitChar (y / 1000), digitChar (y / 100 % 10),
      digitChar (y / 10 % 10), digitChar (y % 10)] := natToDigits_four y hy1 hy2
  have hstr : (natToDigits y ++ (padDigits 2 mo ++ padDigits 2 da)) ++
        zfill 4 (pyStrChars (.int ((h * 100 + mi : Nat) : Int))) =
      digitChar (y / 1000) :: digitChar (y / 100 % 10) :: digitChar (y / 10 % 10) ::
        digitChar (y % 10) :: (padDigits 2 mo ++ (padDigits 2 da ++
          (padDigits 2 h ++ (padDigits 2 mi ++ [])))) := by
    rw [htime, hy4]
    simp
  have hyval : y / 1000 * 1000 + y / 100 % 10 * 100 + y / 10 % 10 * 10 + y % 10 = y := by
    omega
  have hmy := matchY_digits (y / 1000) (y / 100 % 10) (y / 10 % 10) (y % 10)
    (padDigits 2 mo ++ (padDigits 2 da ++ (padDigits 2 h ++ (padDigits 2 mi ++ []))))
    (by omega) (by omega) (by omega) (by omega)
  rw [hyval] at hmy
  have hregex : regexMatchYmdHM (digitChar (y / 1000) :: digitChar (y / 100 % 10) ::
        digitChar (y / 10 % 10) :: digitChar (y % 10) :: (padDigits 2 mo ++
          (padDigits 2 da ++ (padDigits 2 h ++ (padDigits 2 mi ++ []))))) =
      some (y, mo, da, h, mi, []) := by
    simp only [regexMatchYmdHM, hmy]
    rw [mCands_head mo hmo1 hmo2]
    refine firstSuccess_cons _ _ _ _ _ ?_
    beta_reduce
    rw [dCands_head da hda1 hdam]
    refine firstSuccess_cons _ _ _ _ _ ?_
    beta_reduce
    rw [hCands_head h hh]
    refine firstSuccess_cons _ _ _ _ _ ?_
    beta_reduce
    rw [minCands_head mi hmi]
    exact firstSuccess_cons _ _ _ _ _ rfl
  rw [List.append_nil] at hregex
  rw [parse_webuntis_time, hdate, hstr]
  have hy0 : 1 ≤ y := by omega
  simp [strptimeYmdHM, hregex, hda2, hy0]

/-! ## Inversion and loop lemmas for the lesson loop -/

theorem normalizeLesson_ok_some {l : RawLesson} {ev : CalendarEvent}
    (h : normalizeLesson l = .ok (some ev)) :
    ∃ dateV startV endV idV startDt endDt,
      l.code ≠ some "cancelled" ∧
      l.date = some dateV ∧ l.startTime = some startV ∧ l.endTime = some endV ∧
      l.id = some idV ∧
      parse_webuntis_time dateV startV = some startDt ∧
      parse_webuntis_time dateV endV = some endDt ∧
      ev = buildEvent l startDt endDt idV dateV startV := by
  unfold normalizeLesson at h
  split at h
  next hc => exact absurd h (by simp)
  next hc =>
    split at h
    next => exact absurd h (by simp)
    next dateV hd =>
      split at h
      next => exact absurd h (by simp)
      next startV hs =>
        split at h
        next => exact absurd h (by simp)
        next startDt hps =>
          split at h
          next => exact absurd h (by simp)
          next endV he =>
            split at h
            next => exact absurd h (by simp)
            next endDt hpe =>
              split at h
              next => exact absurd h (by simp)
              next idV hid =>
                simp only [Except.ok.injEq, Option.some.injEq] at h
                exact ⟨dateV, startV, endV, idV, startDt, endDt, hc, hd, hs, he, hid,
                  hps, hpe, h.symm⟩

theorem processTimetable_skip {l : RawLesson} (h : normalizeLesson l = .ok none) :
    ∀ pre post, processTimetable (pre ++ l :: post) = processTimetable (pre ++ post) := by
  intro pre
  induction pre with
  | nil =>
    intro post
    simp only [List.nil_append, processTimetable, h]
  | cons p pre ih =>
    intro post
    simp only [List.cons_append, processTimetable, List.append_eq]
    rw [ih post]

theorem processTimetable_append_error {l : RawLesson} {m : String}
    (hl : normalizeLesson l = .error m) :
    ∀ pre post evs n, processTimetable pre = .ok (evs, n) →
      processTimetable (pre ++ l :: post) = .error m := by
  intro pre
  induction pre with
  | nil =>
    intro post evs n _
    simp only [List.nil_append, processTimetable, hl]
  | cons p pre ih =>
    intro post evs n hpre
    simp only [List.cons_append, processTimetable, List.append_eq]
    simp only [processTimetable] at hpre
    cases hp : normalizeLesson p with
    | error m2 => rw [hp] at hpre; exact absurd hpre (by simp)
    | ok o =>
      rw [hp] at hpre
      cases o with
      | none =>
        simp only [] at hpre
        simp only []
        exact ih post evs n hpre
      | some ev =>
        simp only [] at hpre
        cases hrest : processTimetable pre with
        | error m2 => rw [hrest] at hpre; exact absurd hpre (by simp)
        | ok p2 =>
          have hres := ih post p2.1 p2.2 (by rw [hrest])
          simp only [hres]

/-! ## The chunked-fetch loop -/

theorem chunksGo_stop (fuel : Nat) (s e : Int) (h : ¬ s < e) : chunksGo fuel s e = [] := by
  cases fuel with
  | zero => rfl
  | succ f => simp [chunksGo, h]

theorem chunksGo_spec : ∀ fuel (s e : Int), s < e → (e - s).toNat < fuel →
    chunksGo fuel s e ≠ [] ∧
    (chunksGo fuel s e).head?.map Prod.fst = some s ∧
    List.Chain' (fun a b => b.1 = a.2 + 1) (chunksGo fuel s e) ∧
    (∀ c ∈ chunksGo fuel s e, c.1 ≤ c.2 ∧ c.2 - c.1 ≤ 28) ∧
    (chunksGo fuel s e).getLast?.map Prod.snd =
      some (if (e - s) % 29 = 0 then e - 1 else e) := by
  intro fuel
  induction fuel with
  | zero => intro s e h1 h2; omega
  | succ f ih =>
    intro s e h1 h2
    by_cases hA : e ≤ s + 28
    · have hmin : min (s + 28) e = e := by omega
      have hlist : chunksGo (f + 1) s e = [(s, e)] := by
        simp only [chunksGo, if_pos h1, hmin]
        rw [chunksGo_stop f (e + 1) e (by omega)]
      rw [hlist]
      refine ⟨by simp, by simp, List.chain'_singleton _, ?_, ?_⟩
      · intro c hc
        simp only [List.mem_singleton] at hc
        subst hc
        constructor <;> simp <;> omega
      · have hmod : ¬ (e - s) % 29 = 0 := by omega
        simp [hmod]
    · have hmin : min (s + 28) e = s + 28 := by omega
      have hstep : s + 28 + 1 = s + 29 := by ring
      by_cases hB : s + 29 < e
      · obtain ⟨hne, hhead, hchain, hbound, hlast⟩ := ih (s + 29) e hB (by omega)
        have hlist : chunksGo (f + 1) s e = (s, s + 28) :: chunksGo f (s + 29) e := by
          simp only [chunksGo, if_pos h1, hmin, hstep]
        rw [hlist]
        refine ⟨by simp, by simp, ?_, ?_, ?_⟩
        · rw [List.chain'_cons']
          refine ⟨?_, hchain⟩
          intro b hb
          cases hh : (chunksGo f (s + 29) e).head? with
          | none => rw [hh] at hb; exact absurd hb (by simp)
          | some b2 =>
            rw [hh] at hb hhead
            simp only [Option.mem_some_iff] at hb
            have hb2 : b2.1 = s + 29 := by simpa using hhead
            subst hb
            show b2.1 = s + 28 + 1
            omega
        · intro c hc
          rcases List.mem_cons.mp hc with hc1 | hc2
          · subst hc1; constructor <;> simp
          · exact hbound c hc2
        · cases htl : chunksGo f (s + 29) e with
          | nil => exact absurd htl hne
          | cons t ts =>
            rw [List.getLast?_cons_cons]
            rw [htl] at hlast
            have hmodeq : (e - (s + 29)) % 29 = (e - s) % 29 := by omega
            rw [hmodeq] at hlast
            exact hlast
      · have he : e = s + 29 := by omega
        have hlist : chunksGo (f + 1) s e = [(s, s + 28)] := by
          simp only [chunksGo, if_pos h1, hmin, hstep]
          rw [chunksGo_stop f (s + 29) e (by omega)]
        rw [hlist]
        refine ⟨by simp, by simp, List.chain'_singleton _, ?_, ?_⟩
        · intro c hc
          simp only [List.mem_singleton] at hc
          subst hc
          constructor <;> simp
        · have hmod : (e - s) % 29 = 0 := by omega
          have hend : e - 1 = s + 28 := by omega
          simp [hmod, hend]

/-- The fetch loop visits exactly the planner's chunks, and a chunk whose
request fails (either way) contributes the empty list. -/
theorem getTimetableGo_eq (fetch : Int × Int → FetchResult) :
    ∀ fuel (s e : Int), getTimetableGo fetch fuel s e =
      (chunksGo fuel s e).flatMap (fun c =>
        match fetch c with
        | .ok items => items
        | .rpcError _ => []
        | .exn _ => []) := by
  intro fuel
  induction fuel with
  | zero => intro s e; rfl
  | succ f ih =>
    intro s e
    by_cases h : s < e
    · simp only [getTimetableGo, chunksGo, if_pos h, List.flatMap_cons, ih]
    · simp only [getTimetableGo, chunksGo, if_neg h, List.flatMap_nil]

/-! ## uid injectivity -/

theorem append_sep_inj {sep : Char} :
    ∀ l1 l2 r1 r2 : List Char, sep ∉ l1 → sep ∉ l2 →
      l1 ++ sep :: r1 = l2 ++ sep :: r2 → l1 = l2 ∧ r1 = r2 := by
  intro l1
  induction l1 with
  | nil =>
    intro l2 r1 r2 _ h2 heq
    cases l2 with
    | nil => simpa using heq
    | cons c l2 =>
      simp only [List.nil_append, List.cons_append, List.cons.injEq] at heq
      exact absurd (heq.1 ▸ List.mem_cons_self c l2) h2
  | cons c l1 ih =>
    intro l2 r1 r2 h1 h2 heq
    cases l2 with
    | nil =>
      simp only [List.cons_append, List.nil_append, List.cons.injEq] at heq
      exact absurd (heq.1.symm ▸ List.mem_cons_self c l1) h1
    | cons c2 l2 =>
      simp only [List.cons_append, List.cons.injEq] at heq
      have hm1 : sep ∉ l1 := fun hm => h1 (List.mem_cons_of_mem c hm)
      have hm2 : sep ∉ l2 := fun hm => h2 (List.mem_cons_of_mem c2 hm)
      obtain ⟨ha, hb⟩ := ih l2 r1 r2 hm1 hm2 heq.2
      exact ⟨by rw [heq.1, ha], hb⟩

theorem uidString_inj (a b c a2 b2 c2 : Nat)
    (h : uidString (.int (a : Int)) (.int (b : Int)) (.int (c : Int)) =
      uidString (.int (a2 : Int)) (.int (b2 : Int)) (.int (c2 : Int))) :
    a = a2 ∧ b = b2 ∧ c = c2 := by
  unfold uidString at h
  rw [pyStrChars_natInt, pyStrChars_natInt, pyStrChars_natInt, pyStrChars_natInt,
    pyStrChars_natInt, pyStrChars_natInt] at h
  have hdata : natToDigits a ++ '-' :: (natToDigits b ++ '-' ::
      (natToDigits c ++ "@webuntis-sync".data)) = natToDigits a2 ++ '-' ::
      (natToDigits b2 ++ '-' :: (natToDigits c2 ++ "@webuntis-sync".data)) := by
    have := congrArg String.data h
    simpa using this
  obtain ⟨ha, hrest⟩ := append_sep_inj _ _ _ _
    (dash_not_mem_natToDigits a) (dash_not_mem_natToDigits a2) hdata
  obtain ⟨hb, hrest2⟩ := append_sep_inj _ _ _ _
    (dash_not_mem_natToDigits b) (dash_not_mem_natToDigits b2) hrest
  have hc : natToDigits c = natToDigits c2 := by
    have hlen : (natToDigits c).length = (natToDigits c2).length := by
      have := congrArg List.length hrest2
      simp only [List.length_append] at this
      omega
    exact List.append_inj_left hrest2 hlen
  exact ⟨natToDigits_injective ha, natToDigits_injective hb, natToDigits_injective hc⟩

/-! ## Small bridging helpers -/

theorem isEmpty_ite {α β : Type} [DecidableEq α] (l : List α) (x y : β) :
    (if l.isEmpty then x else y) = (if l = [] then x else y) := by
  cases l <;> simp

theorem buildEvent_uid (l : RawLesson) (sd ed : PyDateTime) (iv dv sv : JVal) :
    (buildEvent l sd ed iv dv sv).uid = uidString iv dv sv := rfl

/-! ## Claims -/

/-- C1 (corrected): for every window with `end > start` the chunk loop
yields a non-empty ordered chunk sequence that starts at the window
start, is contiguous (each next start is the previous end plus one day)
and hence non-overlapping, with every chunk spanning at most 28 days;
the last chunk's end equals the window end unless the window length
`end - start` is an exact multiple of 29 days, in which case the loop
stops one day short and the last chunk ends at `end - 1`. -/
theorem chunk_plan_correct (s e : Int) (h : s < e) :
    getChunks s e ≠ [] ∧
    (getChunks s e).head?.map Prod.fst = some s ∧
    List.Chain' (fun a b => b.1 = a.2 + 1) (getChunks s e) ∧
    (∀ c ∈ getChunks s e, c.1 ≤ c.2 ∧ c.2 - c.1 ≤ 28) ∧
    (getChunks s e).getLast?.map Prod.snd =
      some (if (e - s) % 29 = 0 then e - 1 else e) :=
  chunksGo_spec ((e - s).toNat + 1) s e h (by omega)

/-- C1 counterexample: for the window `(0, 29)` (end > start) the loop
produces the single chunk `(0, 28)`, whose end is not the window end 29,
refuting "the last chunk's end equals the window end". -/
theorem chunk_plan_counterexample :
    (0 : Int) < 29 ∧ getChunks 0 29 = [(0, 28)] ∧
    (getChunks 0 29).getLast?.map Prod.snd = some 28 ∧ (28 : Int) ≠ 29 := by
  refine ⟨by decide, by decide, by decide, by decide⟩

/-- C1 witness: the amended statement applied to the concrete window
`(0, 30)`. -/
theorem chunk_plan_correct_witness :
    (0 : Int) < 30 ∧
    (getChunks 0 30 ≠ [] ∧
     (getChunks 0 30).head?.map Prod.fst = some 0 ∧
     List.Chain' (fun a b => b.1 = a.2 + 1) (getChunks 0 30) ∧
     (∀ c ∈ getChunks 0 30, c.1 ≤ c.2 ∧ c.2 - c.1 ≤ 28) ∧
     (getChunks 0 30).getLast?.map Prod.snd =
       some (if ((30 : Int) - 0) % 29 = 0 then 30 - 1 else 30)) :=
  ⟨by decide, chunk_plan_correct 0 30 (by decide)⟩

/-- C2: a lesson with `code = "cancelled"` is skipped before any event is
constructed (`normalizeLesson` yields no event), and it contributes
neither an event nor a count increment: the loop result over any
timetable containing it equals the result with it removed. -/
theorem cancelled_lesson_skipped (l : RawLesson) (h : l.code = some "cancelled") :
    normalizeLesson l = .ok none ∧
    ∀ pre post, processTimetable (pre ++ l :: post) = processTimetable (pre ++ post) := by
  have hn : normalizeLesson l = .ok none := by
    unfold normalizeLesson
    rw [if_pos h]
  exact ⟨hn, processTimetable_skip hn⟩

/-- The lessons used to witness C2. -/
def c2Cancelled : RawLesson := { code := some "cancelled", id := some (.int 3) }

def c2Before : RawLesson := { id := some (.int 1) }

def c2After : RawLesson := { id := some (.int 2) }

/-- C2 witness: a concrete cancelled lesson between two other lessons. -/
theorem cancelled_lesson_skipped_witness :
    normalizeLesson c2Cancelled = .ok none ∧
    processTimetable ([c2Before] ++ c2Cancelled :: [c2After]) =
      processTimetable ([c2Before] ++ [c2After]) :=
  ⟨(cancelled_lesson_skipped c2Cancelled rfl).1,
   (cancelled_lesson_skipped c2Cancelled rfl).2 [c2Before] [c2After]⟩

/-- C3: for a non-cancelled lesson with a well-formed 8-digit `YYYYMMDD`
date and valid `HMM`/`HHMM` start and end times (and an `id` present, so
an event is emitted), the produced event's start and end are exactly the
encoded wall-clock instants localized to the fixed institution timezone
Europe/Brussels. -/
theorem well_formed_times_localized (l : RawLesson) (y mo da h mi h2 mi2 : Nat) (idV : JVal)
    (hy1 : 1000 ≤ y) (hy2 : y ≤ 9999) (hmo1 : 1 ≤ mo) (hmo2 : mo ≤ 12)
    (hda1 : 1 ≤ da) (hda2 : da ≤ daysInMonth y mo)
    (hh : h ≤ 23) (hmi : mi ≤ 59) (hh2 : h2 ≤ 23) (hmi2 : mi2 ≤ 59)
    (hcode : l.code ≠ some "cancelled")
    (hdate : l.date = some (.int ((y * 10000 + mo * 100 + da : Nat) : Int)))
    (hstart : l.startTime = some (.int ((h * 100 + mi : Nat) : Int)))
    (hend : l.endTime = some (.int ((h2 * 100 + mi2 : Nat) : Int)))
    (hid : l.id = some idV) :
    ∃ ev, normalizeLesson l = .ok (some ev) ∧
      ev.dtstart = localize "Europe/Brussels" ⟨y, mo, da, h, mi⟩ ∧
      ev.dtend = localize "Europe/Brussels" ⟨y, mo, da, h2, mi2⟩ := by
  have hps := parse_webuntis_time_valid y mo da h mi hy1 hy2 hmo1 hmo2 hda1 hda2 hh hmi
  have hpe := parse_webuntis_time_valid y mo da h2 mi2 hy1 hy2 hmo1 hmo2 hda1 hda2 hh2 hmi2
  refine ⟨buildEvent l ⟨y, mo, da, h, mi⟩ ⟨y, mo, da, h2, mi2⟩ idV
    (.int ((y * 10000 + mo * 100 + da : Nat) : Int))
    (.int ((h * 100 + mi : Nat) : Int)), ?_, rfl, rfl⟩
  simp only [normalizeLesson, if_neg hcode, hdate, hstart, hend, hid, hps, hpe]

/-- The lesson used to witness C3. -/
def c3Lesson : RawLesson :=
  { id := some (.int 1), date := some (.int 20240305),
    startTime := some (.int 800), endTime := some (.int 845) }

/-- C3 witness: the spec's example, date 20240305 with times 800 and 845,
yields 08:00 and 08:45 local time on 2024-03-05. -/
theorem well_formed_times_localized_witness :
    ∃ ev, normalizeLesson c3Lesson = .ok (some ev) ∧
      ev.dtstart = localize "Europe/Brussels" ⟨2024, 3, 5, 8, 0⟩ ∧
      ev.dtend = localize "Europe/Brussels" ⟨2024, 3, 5, 8, 45⟩ :=
  well_formed_times_localized c3Lesson 2024 3 5 8 0 8 45 (.int 1)
    (by decide) (by decide) (by decide) (by decide) (by decide) (by decide)
    (by decide) (by decide) (by decide) (by decide) (by decide)
    (by decide) (by decide) (by decide) (by decide)

/-- C4: for lessons whose `id`/`date`/`startTime` are (non-negative)
integers, as the data model specifies, the uid is a deterministic
function of that triple: two produced events have equal uids exactly
when the triples agree — so re-normalizing the same lesson reproduces
the uid, and a difference in id, date or startTime forces distinct uids. -/
theorem uid_deterministic_injective (l l2 : RawLesson) (ev ev2 : CalendarEvent)
    (a b c a2 b2 c2 : Nat)
    (hid : l.id = some (.int (a : Int))) (hdate : l.date = some (.int (b : Int)))
    (hstart : l.startTime = some (.int (c : Int)))
    (hid2 : l2.id = some (.int (a2 : Int))) (hdate2 : l2.date = some (.int (b2 : Int)))
    (hstart2 : l2.startTime = some (.int (c2 : Int)))
    (h1 : normalizeLesson l = .ok (some ev)) (h2 : normalizeLesson l2 = .ok (some ev2)) :
    ev.uid = ev2.uid ↔ (a = a2 ∧ b = b2 ∧ c = c2) := by
  obtain ⟨dv, sv, e1v, iv, sdt, edt, _, hd, hs, _, hi, _, _, hev⟩ := normalizeLesson_ok_some h1
  obtain ⟨dv2, sv2, e2v, iv2, sdt2, edt2, _, hd2, hs2, _, hi2, _, _, hev2⟩ :=
    normalizeLesson_ok_some h2
  rw [hid] at hi
  rw [hdate] at hd
  rw [hstart] at hs
  rw [hid2] at hi2
  rw [hdate2] at hd2
  rw [hstart2] at hs2
  obtain rfl : iv = .int (a : Int) := (Option.some.inj hi).symm
  obtain rfl : dv = .int (b : Int) := (Option.some.inj hd).symm
  obtain rfl : sv = .int (c : Int) := (Option.some.inj hs).symm
  obtain rfl : iv2 = .int (a2 : Int) := (Option.some.inj hi2).symm
  obtain rfl : dv2 = .int (b2 : Int) := (Option.some.inj hd2).symm
  obtain rfl : sv2 = .int (c2 : Int) := (Option.some.inj hs2).symm
  subst hev
  subst hev2
  rw [buildEvent_uid, buildEvent_uid]
  constructor
  · exact uidString_inj a b c a2 b2 c2
  · rintro ⟨rfl, rfl, rfl⟩
    rfl

/-- The lesson/event pairs used to witness C4. -/
def c4LessonA : RawLesson :=
  { id := some (.int 1), date := some (.int 20240305),
    startTime := some (.int 800), endTime := some (.int 845) }

def c4LessonB : RawLesson :=
  { id := some (.int 2), date := some (.int 20240305),
    startTime := some (.int 800), endTime := some (.int 845) }

def c4EventA : CalendarEvent :=
  { summary := "Lesson", dtstart := ⟨⟨2024, 3, 5, 8, 0⟩, "Europe/Brussels"⟩,
    dtend := ⟨⟨2024, 3, 5, 8, 45⟩, "Europe/Brussels"⟩, description := none,
    location := none, uid := "1-20240305-800@webuntis-sync" }

def c4EventB : CalendarEvent :=
  { summary := "Lesson", dtstart := ⟨⟨2024, 3, 5, 8, 0⟩, "Europe/Brussels"⟩,
    dtend := ⟨⟨2024, 3, 5, 8, 45⟩, "Europe/Brussels"⟩, description := none,
    location := none, uid := "2-20240305-800@webuntis-sync" }

/-- C4 witness: two concrete lessons differing only in id produce events
with distinct uids. -/
theorem uid_deterministic_injective_witness :
    normalizeLesson c4LessonA = .ok (some c4EventA) ∧
    normalizeLesson c4LessonB = .ok (some c4EventB) ∧
    c4EventA.uid ≠ c4EventB.uid := by
  have hA : normalizeLesson c4LessonA = .ok (some c4EventA) := rfl
  have hB : normalizeLesson c4LessonB = .ok (some c4EventB) := rfl
  refine ⟨hA, hB, fun hu => ?_⟩
  have hinj := (uid_deterministic_injective c4LessonA c4LessonB c4EventA c4EventB
    1 20240305 800 2 20240305 800 (by decide) (by decide) (by decide)
    (by decide) (by decide) (by decide) hA hB).mp hu
  exact absurd hinj.1 (by decide)

/-- C5: a non-cancelled lesson whose date/time fields fail to parse
(whether the first parse of `(date, startTime)` raises ValueError or the
second parse of `(date, endTime)` does) is skipped without producing an
event, the remaining records are processed unchanged, and the run is
never aborted by the failure. -/
theorem parse_failure_skips (l : RawLesson) (dateV startV : JVal)
    (hcode : l.code ≠ some "cancelled") (hd : l.date = some dateV)
    (hs : l.startTime = some startV) :
    (parse_webuntis_time dateV startV = none →
      normalizeLesson l = .ok none ∧
      ∀ pre post, processTimetable (pre ++ l :: post) = processTimetable (pre ++ post)) ∧
    (∀ startDt endV, parse_webuntis_time dateV startV = some startDt →
      l.endTime = some endV → parse_webuntis_time dateV endV = none →
      normalizeLesson l = .ok none ∧
      ∀ pre post, processTimetable (pre ++ l :: post) = processTimetable (pre ++ post)) := by
  constructor
  · intro hps
    have hn : normalizeLesson l = .ok none := by
      simp only [normalizeLesson, if_neg hcode, hd, hs, hps]
    exact ⟨hn, processTimetable_skip hn⟩
  · intro startDt endV hps he hpe
    have hn : normalizeLesson l = .ok none := by
      simp only [normalizeLesson, if_neg hcode, hd, hs, hps, he, hpe]
    exact ⟨hn, processTimetable_skip hn⟩

/-- The lessons used to witness C5. -/
def c5Lesson : RawLesson :=
  { id := some (.int 7), date := some (.int 20240305),
    startTime := some (.str "abc"), endTime := some (.int 845) }

def c5Other : RawLesson :=
  { id := some (.int 1), date := some (.int 20240305),
    startTime := some (.int 800), endTime := some (.int 845) }

/-- C5 witness: a concrete lesson with non-numeric startTime `"abc"` is
skipped and a subsequent lesson is processed unaffected. -/
theorem parse_failure_skips_witness :
    normalizeLesson c5Lesson = .ok none ∧
    processTimetable ([] ++ c5Lesson :: [c5Other]) = processTimetable ([] ++ [c5Other]) := by
  have h := parse_failure_skips c5Lesson (.int 20240305) (.str "abc")
    (by decide) rfl rfl
  exact ⟨(h.1 (by decide)).1, (h.1 (by decide)).2 [] [c5Other]⟩

/-- C6: a failed chunk (remote-reported error or transport exception)
contributes exactly the empty list while every successful chunk
contributes its lessons in chunk order — the fetch loop equals the
planner's chunk list flat-mapped through the per-chunk outcome — and a
run whose fetch had failing chunks still completes on the success path,
writing the events normalized from the successful chunks. -/
theorem chunk_failure_partial_results :
    (∀ (fetch : Int × Int → FetchResult) (s e : Int),
      get_timetable fetch s e = (getChunks s e).flatMap (fun c =>
        match fetch c with
        | .ok items => items
        | .rpcError _ => []
        | .exn _ => [])) ∧
    (∀ (env : Env) (cfg : Config) (sid eid etype : Nat)
        (evs : List CalendarEvent) (n : Nat),
      env.config = some cfg → webuntis_login env.login = .ok sid →
      get_element_id cfg env.klassenResult env.studentsResult = .ok (eid, etype) →
      processTimetable
          (get_timetable env.fetch (env.todayOrd - 90) (env.todayOrd + 180)) =
        .ok (evs, n) →
      runMain env = (0, some (evs, n), successMsg n)) := by
  constructor
  · intro fetch s e
    exact getTimetableGo_eq fetch ((e - s).toNat + 1) s e
  · intro env cfg sid eid etype evs n hc hl hel hpt
    simp only [runMain, sync_calendar, hc, hl, hel, hpt]

/-- The environment used to witness C6: chunk 1 returns one lesson,
chunk 2 fails with a remote error, all later chunks are empty. -/
def c6Config : Config :=
  { server := "example.webuntis.com", school := "school", username := "u", password := "p" }

def c6Lesson : RawLesson :=
  { id := some (.int 1), date := some (.int 20240305),
    startTime := some (.int 800), endTime := some (.int 845) }

def c6Event : CalendarEvent :=
  { summary := "Lesson", dtstart := ⟨⟨2024, 3, 5, 8, 0⟩, "Europe/Brussels"⟩,
    dtend := ⟨⟨2024, 3, 5, 8, 45⟩, "Europe/Brussels"⟩, description := none,
    location := none, uid := "1-20240305-800@webuntis-sync" }

def c6Env : Env :=
  { config := some c6Config, login := .ok 7, klassenResult := some [⟨10, "1A"⟩],
    studentsResult := none,
    fetch := fun c =>
      if c = ((0 : Int), (28 : Int)) then .ok [c6Lesson]
      else if c = ((29 : Int), (57 : Int)) then .rpcError "no allowed date"
      else .ok [],
    todayOrd := 90 }

/-- C6 witness: with chunk 2 failing remotely, the run still exits on the
success path and the output contains the event from chunk 1. -/
theorem chunk_failure_partial_results_witness :
    c6Env.fetch (29, 57) = .rpcError "no allowed date" ∧
    runMain c6Env = (0, some ([c6Event], 1), successMsg 1) :=
  ⟨rfl,
   chunk_failure_partial_results.2 c6Env c6Config 7 10 1 [c6Event] 1
     rfl rfl rfl rfl⟩

/-- The projection used to state C7. -/
def summaryOfRun (l : RawLesson) : Option String :=
  match normalizeLesson l with
  | .ok (some ev) => some ev.summary
  | _ => none

/-- The lesson used in C7's counterexample: subjects Math and Physics and
a present-but-empty substText. -/
def c7Lesson : RawLesson :=
  { id := some (.int 1), date := some (.int 20240305), startTime := some (.int 800),
    endTime := some (.int 845), su := [⟨some "Math", none⟩, ⟨some "Physics", none⟩],
    substText := some "" }

/-- C7 counterexample: `substText` is present (the empty string), yet the
produced summary is `"Math, Physics"` without appended parentheses — the
code tests Python truthiness, not presence — refuting the claim's
formula, which would give `"Math, Physics ()"`. -/
theorem summary_substText_counterexample :
    c7Lesson.substText = some "" ∧
    summaryOfRun c7Lesson = some "Math, Physics" ∧
    summaryOfRun c7Lesson ≠
      some (claimSummary (c7Lesson.su.map displayName) c7Lesson.substText) := by
  refine ⟨rfl, by decide, by decide⟩

/-- C7 (corrected): the event summary is the comma-joined subject display
names (longname if non-empty, else name, else empty), or the literal
"Lesson" when the `su` list is empty; `substText` is appended in
parentheses when it is present AND non-empty. -/
theorem summary_matches_spec (l : RawLesson) (ev : CalendarEvent)
    (h : normalizeLesson l = .ok (some ev)) :
    ev.summary = specSummary (l.su.map displayName) l.substText := by
  obtain ⟨dv, sv, e1v, iv, sdt, edt, _, _, _, _, _, _, _, hev⟩ := normalizeLesson_ok_some h
  subst hev
  simp only [buildEvent, specSummary, isEmpty_ite]

/-- The lesson/event pair used to witness C7. -/
def c7LessonW : RawLesson :=
  { id := some (.int 1), date := some (.int 20240305), startTime := some (.int 800),
    endTime := some (.int 845), su := [⟨some "Math", none⟩, ⟨some "Physics", none⟩],
    substText := some "Room changed" }

def c7EventW : CalendarEvent :=
  { summary := "Math, Physics (Room changed)",
    dtstart := ⟨⟨2024, 3, 5, 8, 0⟩, "Europe/Brussels"⟩,
    dtend := ⟨⟨2024, 3, 5, 8, 45⟩, "Europe/Brussels"⟩,
    description := some "Room changed",
    location := none, uid := "1-20240305-800@webuntis-sync" }

/-- C7 witness: subjects Math and Physics with substText "Room changed"
give summary "Math, Physics (Room changed)", matching the amended
formula. -/
theorem summary_matches_spec_witness :
    normalizeLesson c7LessonW = .ok (some c7EventW) ∧
    c7EventW.summary = "Math, Physics (Room changed)" ∧
    c7EventW.summary = specSummary (c7LessonW.su.map displayName) c7LessonW.substText := by
  have h : normalizeLesson c7LessonW = .ok (some c7EventW) := rfl
  exact ⟨h, rfl, summary_matches_spec c7LessonW c7EventW h⟩

/-- The projection used to state C8. -/
def descriptionOfRun (l : RawLesson) : Option (Option String) :=
  match normalizeLesson l with
  | .ok (some ev) => some ev.description
  | _ => none

/-- The lesson used in C8's counterexample: one teacher and a
present-but-empty `info`. -/
def c8Lesson : RawLesson :=
  { id := some (.int 1), date := some (.int 20240305), startTime := some (.int 800),
    endTime := some (.int 845), te := [⟨some "X", none⟩], info := some "" }

/-- C8 counterexample: `info` is present (the empty string), yet the
produced description is `"X"` — the claim's formula, which includes the
`info` part whenever present, would give `"X\n"`. -/
theorem description_info_counterexample :
    c8Lesson.info = some "" ∧
    descriptionOfRun c8Lesson = some (some "X") ∧
    descriptionOfRun c8Lesson ≠
      some (claimDescription (c8Lesson.te.map displayName) (c8Lesson.kl.map displayName)
        c8Lesson.info c8Lesson.substText) := by
  refine ⟨rfl, by decide, by decide⟩

/-- C8 (corrected): the event description is the newline-join, in fixed
order, of the slash-joined teacher names if any, the slash-joined class
names if any, `info` if present AND non-empty, and `substText` if
present AND non-empty; the description field is omitted entirely when no
part is produced. -/
theorem description_matches_spec (l : RawLesson) (ev : CalendarEvent)
    (h : normalizeLesson l = .ok (some ev)) :
    ev.description =
      specDescription (l.te.map displayName) (l.kl.map displayName) l.info l.substText := by
  obtain ⟨dv, sv, e1v, iv, sdt, edt, _, _, _, _, _, _, _, hev⟩ := normalizeLesson_ok_some h
  subst hev
  simp only [buildEvent, specDescription, isEmpty_ite]

/-- The lesson/event pair used to witness C8. -/
def c8LessonW : RawLesson :=
  { id := some (.int 1), date := some (.int 20240305), startTime := some (.int 800),
    endTime := some (.int 845), te := [⟨some "Alice", none⟩, ⟨some "Bob", none⟩],
    kl := [⟨some "1A", none⟩], info := some "bring books",
    substText := some "Room changed" }

def c8EventW : CalendarEvent :=
  { summary := "Lesson (Room changed)",
    dtstart := ⟨⟨2024, 3, 5, 8, 0⟩, "Europe/Brussels"⟩,
    dtend := ⟨⟨2024, 3, 5, 8, 45⟩, "Europe/Brussels"⟩,
    description := some "Alice / Bob\n1A\nbring books\nRoom changed",
    location := none, uid := "1-20240305-800@webuntis-sync" }

/-- C8 witness: teachers, a class, `info` and `substText` all present and
non-empty produce the four newline-joined parts in fixed order. -/
theorem description_matches_spec_witness :
    normalizeLesson c8LessonW = .ok (some c8EventW) ∧
    c8EventW.description = some "Alice / Bob\n1A\nbring books\nRoom changed" ∧
    c8EventW.description =
      specDescription (c8LessonW.te.map displayName) (c8LessonW.kl.map displayName)
        c8LessonW.info c8LessonW.substText := by
  have h : normalizeLesson c8LessonW = .ok (some c8EventW) := rfl
  exact ⟨h, rfl, description_matches_spec c8LessonW c8EventW h⟩

/-- C9: every fatal error — missing configuration, authentication failure
(transport or reported), or element-resolution failure — aborts the run
with exit status 1, a reported error message, and no output file written;
and only the non-fatal path writes the file: whenever `sync_calendar`
succeeds (chunk failures included, since fetching is total), the file is
written with exit status 0. -/
theorem fatal_error_aborts (env : Env) :
    (env.config = none → runMain env =
      (1, none, "❌ Error: " ++ "Configuration not found. Check environment variables.")) ∧
    (∀ cfg m, env.config = some cfg → env.login = .transportFail m →
      runMain env = (1, none, "❌ Error: " ++ ("Connection failed: " ++ m))) ∧
    (∀ cfg m, env.config = some cfg → env.login = .rpcError m →
      runMain env = (1, none, "❌ Error: " ++ ("Login failed: " ++ m))) ∧
    (∀ cfg sid, env.config = some cfg → env.login = .ok sid → cfg.class_id = none →
      (env.klassenResult = none ∨ env.klassenResult = some []) →
      (env.studentsResult = none ∨ env.studentsResult = some []) →
      runMain env = (1, none, "❌ Error: " ++ "Could not find any Class or Student ID.")) ∧
    (∀ evs n, sync_calendar env = .ok (evs, n) →
      runMain env = (0, some (evs, n), successMsg n)) := by
  refine ⟨?_, ?_, ?_, ?_, ?_⟩
  · intro hc
    simp only [runMain, sync_calendar, hc]
  · intro cfg m hc hl
    simp only [runMain, sync_calendar, hc, hl, webuntis_login]
  · intro cfg m hc hl
    simp only [runMain, sync_calendar, hc, hl, webuntis_login]
  · intro cfg sid hc hl hcid hkl hst
    rcases hkl with hkl | hkl <;> rcases hst with hst | hst <;>
      simp only [runMain, sync_calendar, webuntis_login, get_element_id,
        hc, hl, hcid, hkl, hst]
  · intro evs n hok
    simp only [runMain, hok]

/-- The environment used to witness C9: no configuration present. -/
def c9Env : Env :=
  { config := none, login := .rpcError "bad credentials", klassenResult := none,
    studentsResult := none, fetch := fun _ => .ok [], todayOrd := 0 }

/-- C9 witness: with no configuration the run exits with status 1,
reports the configuration error, and writes no file. -/
theorem fatal_error_aborts_witness :
    runMain c9Env =
      (1, none, "❌ Error: " ++ "Configuration not found. Check environment variables.") :=
  (fatal_error_aborts c9Env).1 rfl

/-- The lesson used in C10's counterexample: `endTime` and `id` keys are
entirely absent, but `startTime` is malformed, so the ValueError skip
fires before either missing key is touched. -/
def c10Lesson : RawLesson :=
  { date := some (.int 20240305), startTime := some (.str "abc") }

/-- C10 counterexample: a non-cancelled record lacking the `endTime` and
`id` keys does NOT abort the run when its `startTime` fails to parse:
the record is skipped and processing completes normally, refuting the
claim that such a record always raises an uncaught KeyError. -/
theorem missing_key_counterexample :
    c10Lesson.endTime = none ∧ c10Lesson.id = none ∧
    c10Lesson.code ≠ some "cancelled" ∧
    normalizeLesson c10Lesson = .ok none ∧
    processTimetable [c10Lesson] = .ok ([], 0) := by
  refine ⟨rfl, rfl, by decide, rfl, rfl⟩

/-- C10 (corrected): a non-cancelled record missing a key raises an
uncaught KeyError — aborting the run before the output file is written —
exactly when the loop reaches that access: a missing `date` always;
a missing `startTime` once `date` is present; a missing `endTime` once
`(date, startTime)` parsed; a missing `id` once both parses succeeded.
Only ValueError is caught, so the KeyError propagates: if all records
before the bad one processed normally, the whole loop errors, and the
run exits without writing the file. -/
theorem missing_key_aborts :
    (∀ l : RawLesson, l.code ≠ some "cancelled" → l.date = none →
      normalizeLesson l = .error "KeyError: 'date'") ∧
    (∀ (l : RawLesson) dateV, l.code ≠ some "cancelled" → l.date = some dateV →
      l.startTime = none → normalizeLesson l = .error "KeyError: 'startTime'") ∧
    (∀ (l : RawLesson) dateV startV startDt, l.code ≠ some "cancelled" →
      l.date = some dateV → l.startTime = some startV →
      parse_webuntis_time dateV startV = some startDt → l.endTime = none →
      normalizeLesson l = .error "KeyError: 'endTime'") ∧
    (∀ (l : RawLesson) dateV startV endV startDt endDt, l.code ≠ some "cancelled" →
      l.date = some dateV → l.startTime = some startV →
      parse_webuntis_time dateV startV = some startDt → l.endTime = some endV →
      parse_webuntis_time dateV endV = some endDt → l.id = none →
      normalizeLesson l = .error "KeyError: 'id'") ∧
    (∀ (l : RawLesson) m pre post evs n, normalizeLesson l = .error m →
      processTimetable pre = .ok (evs, n) →
      processTimetable (pre ++ l :: post) = .error m) ∧
    (∀ (env : Env) m, sync_calendar env = .error m →
      runMain env = (1, none, "❌ Error: " ++ m)) := by
  refine ⟨?_, ?_, ?_, ?_, ?_, ?_⟩
  · intro l hcode hd
    simp only [normalizeLesson, if_neg hcode, hd]
  · intro l dateV hcode hd hs
    simp only [normalizeLesson, if_neg hcode, hd, hs]
  · intro l dateV startV startDt hcode hd hs hps he
    simp only [normalizeLesson, if_neg hcode, hd, hs, hps, he]
  · intro l dateV startV endV startDt endDt hcode hd hs hps he hpe hi
    simp only [normalizeLesson, if_neg hcode, hd, hs, hps, he, hpe, hi]
  · intro l m pre post evs n hl hpre
    exact processTimetable_append_error hl pre post evs n hpre
  · intro env m hs
    simp only [runMain, hs]

/-- C10 witness: the empty record (every key absent) raises
`KeyError: 'date'` and aborts the loop. -/
theorem missing_key_aborts_witness :
    normalizeLesson ({ } : RawLesson) = .error "KeyError: 'date'" ∧
    processTimetable [({ } : RawLesson)] = .error "KeyError: 'date'" := by
  have h := missing_key_aborts.1 ({ } : RawLesson) (by decide) rfl
  exact ⟨h, missing_key_aborts.2.2.2.2.1 ({ } : RawLesson) _ [] [] [] 0 h rfl⟩

end WebUntisSync
